import Mathlib

/-!
# Verification of the `agg_cex_orders` aggregation engine

Shallow embedding of the repository's core (`src/orderbook.rs`, `src/util.rs`,
`src/api/binance.rs`, `src/api/bitstamp.rs`) in Lean 4, together with theorems
settling the specification claims about it.

Conventions:
* Rust `u64` values are embedded as `Nat` with explicit `% 2^64` where wrap
  matters and explicit `< 2^64` checks where the source uses checked arithmetic.
* Rust `&str` values are embedded as `List Char`.
* `BTreeMap<u64, u64>` is embedded as an association list with strictly
  ascending keys (its iteration order); `DashMap` (arbitrary iteration order)
  is embedded as an association list whose list order stands for one concrete
  iteration order.
-/

namespace AggCex

/-- The modulus / bound `2^64` of Rust `u64`. -/
def U64_MOD : Nat := 18446744073709551616

/-- Embeds Rust `u64::from_str` (`s.parse::<u64>()`): an optional leading `'+'`
followed by one or more ASCII digits, rejecting the empty string, non-digit
characters, and values that do not fit in a `u64`. -/
def parseU64 (s : List Char) : Option Nat :=
  let digits := match s with
    | '+' :: rest => rest
    | _ => s
  if digits.isEmpty then none
  else if digits.all Char.isDigit then
    let v := digits.foldl (fun acc c => acc * 10 + (c.toNat - 48)) 0
    if v < U64_MOD then some v else none
  else none

/-- Embeds `u64::checked_mul`. -/
def checkedMul (a b : Nat) : Option Nat :=
  if a * b < U64_MOD then some (a * b) else none

/-- Embeds `u64::checked_add`. -/
def checkedAdd (a b : Nat) : Option Nat :=
  if a + b < U64_MOD then some (a + b) else none

/-- Embeds `10u64.checked_pow(e)` (for base `10` the checked exponentiation
succeeds exactly when the final value fits in a `u64`). -/
def checkedPow10 (e : Nat) : Option Nat :=
  if 10 ^ e < U64_MOD then some (10 ^ e) else none

/-- Embeds Rust `str::split('.')`: the list of `'.'`-separated fragments, in
order. `splitDot [] = [[]]`, matching `"".split('.')` yielding one empty part. -/
def splitDot : List Char → List (List Char)
  | [] => [[]]
  | c :: rest =>
    if c = '.' then [] :: splitDot rest
    else
      match splitDot rest with
      | [] => [[c]]
      | h :: t => (c :: h) :: t

/-- Embeds the fractional-part adjustment shared by both parsers in
`src/util.rs`: `frac.truncate(width)` when too long, otherwise right-pad with
`'0'` until the length is exactly `width`. -/
def adjustFrac (frac : List Char) (width : Nat) : List Char :=
  if width < frac.length then frac.take width
  else frac ++ List.replicate (width - frac.length) '0'

/-- Embeds `parse_price_cents` (`src/util.rs` lines 75–103): split at `'.'`,
reject more than one dot, parse the integer part, adjust the fractional part to
exactly two digits and parse it (absent fraction counts as `0`), and combine
with checked `·*100 + frac`. -/
def parse_price_cents (s : List Char) : Option Nat :=
  match splitDot s with
  | [intPart] => do
    let intVal ← parseU64 intPart
    let m ← checkedMul intVal 100
    checkedAdd m 0
  | [intPart, fracPart] => do
    let intVal ← parseU64 intPart
    let fracVal ← parseU64 (adjustFrac fracPart 2)
    let m ← checkedMul intVal 100
    checkedAdd m fracVal
  | _ => none

/-- Embeds `parse_quantity_smallest_unit` (`src/util.rs` lines 107–136): same
shape as `parse_price_cents` with scale `10^decimals`, the fractional part
adjusted to exactly `decimals` digits. -/
def parse_quantity_smallest_unit (s : List Char) (decimals : Nat) : Option Nat :=
  match splitDot s with
  | [intPart] => do
    let intVal ← parseU64 intPart
    let scale ← checkedPow10 decimals
    let m ← checkedMul intVal scale
    checkedAdd m 0
  | [intPart, fracPart] => do
    let intVal ← parseU64 intPart
    let scale ← checkedPow10 decimals
    let fracVal ← parseU64 (adjustFrac fracPart decimals)
    let m ← checkedMul intVal scale
    checkedAdd m fracVal
  | _ => none

/-- The price parser as the specification's §4.1 words describe it: split at
`'.'`; reject when there are more than two parts; parse the integer part as
base-10 unsigned; if a fractional part exists, truncate it to two digits or
right-pad it with `'0'` to exactly two digits and parse it, else take `0`;
final value `integer·100 + fraction` with `none` on overflow of the
multiplication or the addition. -/
def price_cents_specification (s : List Char) : Option Nat :=
  let parts := splitDot s
  if 2 < parts.length then none
  else
    match parts with
    | [intPart] =>
      (parseU64 intPart).bind fun intVal =>
        (checkedMul intVal 100).bind fun m => checkedAdd m 0
    | [intPart, fracPart] =>
      let adjusted :=
        if 2 < fracPart.length then fracPart.take 2
        else fracPart ++ List.replicate (2 - fracPart.length) '0'
      (parseU64 intPart).bind fun intVal =>
        (parseU64 adjusted).bind fun fracVal =>
          (checkedMul intVal 100).bind fun m => checkedAdd m fracVal
    | _ => none

theorem parseU64_lt {s : List Char} {v : Nat} (h : parseU64 s = some v) :
    v < U64_MOD := by
  unfold parseU64 at h
  dsimp at h
  split at h
  · exact absurd h (by simp)
  · split at h
    · split at h
      · cases h; assumption
      · exact absurd h (by simp)
    · exact absurd h (by simp)

theorem splitDot_ne_nil (s : List Char) : splitDot s ≠ [] := by
  induction s with
  | nil => simp [splitDot]
  | cons c rest ih =>
    unfold splitDot
    split
    · simp
    · cases h : splitDot rest with
      | nil => exact absurd h ih
      | cons hd tl => simp

theorem splitDot_of_not_mem {s : List Char} (h : '.' ∉ s) : splitDot s = [s] := by
  induction s with
  | nil => rfl
  | cons c rest ih =>
    have hc : c ≠ '.' := fun hc => h (hc ▸ List.mem_cons_self c rest)
    have hrest : '.' ∉ rest := fun hm => h (List.mem_cons_of_mem c hm)
    unfold splitDot
    rw [if_neg (fun hcc => hc hcc), ih hrest]

theorem splitDot_length_of_mem {s : List Char} (h : '.' ∈ s) :
    2 ≤ (splitDot s).length := by
  induction s with
  | nil => cases h
  | cons c rest ih =>
    unfold splitDot
    by_cases hc : c = '.'
    · rw [if_pos hc]
      have := splitDot_ne_nil rest
      cases hsp : splitDot rest with
      | nil => exact absurd hsp this
      | cons hd tl => simp
    · rw [if_neg hc]
      have hrest : '.' ∈ rest := by
        rcases List.mem_cons.mp h with h1 | h2
        · exact absurd h1.symm hc
        · exact h2
      cases hsp : splitDot rest with
      | nil => exact absurd hsp (splitDot_ne_nil rest)
      | cons hd tl =>
        have := ih hrest
        rw [hsp] at this
        simpa using this

/-- Claim C5: `parse_price_cents` rejects strings with more than one `'.'`,
parses the integer part as base-10 unsigned, truncates the fractional part to
two digits or right-pads it with `'0'` to exactly two digits, returns
`integer·100 + fraction`, and returns `none` on overflow of the multiplication
or the addition — i.e. it agrees with the specification's description on every
input string; in particular `parse_price_cents "1234.56789" = 123456` and
`parse_quantity_smallest_unit "0.00000001" 8 = 1`. -/
theorem C5_parse_price_cents_follows_spec :
    (∀ s : List Char, parse_price_cents s = price_cents_specification s) ∧
    parse_price_cents "1234.56789".toList = some 123456 ∧
    parse_quantity_smallest_unit "0.00000001".toList 8 = some 1 := by
  refine ⟨fun s => ?_, by decide, by decide⟩
  unfold parse_price_cents price_cents_specification
  cases h : splitDot s with
  | nil => simp
  | cons a t =>
    cases t with
    | nil => simp [adjustFrac]
    | cons b t2 =>
      cases t2 with
      | nil => simp [adjustFrac]
      | cons c t3 => simp

/-- Claim C10: with `decimals = 0`, `parse_quantity_smallest_unit s 0` returns
`none` for every string containing a `'.'` (the fractional part is truncated to
the empty string, which fails to parse), while strings without a `'.'` parse
exactly as plain base-10 unsigned integers (scale `1`). -/
theorem C10_decimals_zero_dot_rejected :
    ∀ s : List Char,
      ('.' ∈ s → parse_quantity_smallest_unit s 0 = none) ∧
      ('.' ∉ s → parse_quantity_smallest_unit s 0 = parseU64 s) := by
  intro s
  constructor
  · intro hmem
    have hlen := splitDot_length_of_mem hmem
    unfold parse_quantity_smallest_unit
    cases h : splitDot s with
    | nil => simp
    | cons a t =>
      cases t with
      | nil => rw [h] at hlen; simp at hlen
      | cons b t2 =>
        cases t2 with
        | nil =>
          have hadj : adjustFrac b 0 = [] := by
            unfold adjustFrac
            split
            · simp
            · have : b.length = 0 := by omega
              simp [List.length_eq_zero.mp this]
          have hemp : parseU64 [] = none := by decide
          cases hp : parseU64 a with
          | none => simp [hp]
          | some v => simp [hp, hadj, hemp, checkedPow10, U64_MOD]
        | cons c t3 => simp
  · intro hnot
    unfold parse_quantity_smallest_unit
    rw [splitDot_of_not_mem hnot]
    cases hp : parseU64 s with
    | none => simp [hp]
    | some v =>
      have hv := parseU64_lt hp
      have h1 : checkedPow10 0 = some 1 := by decide
      have h2 : checkedMul v 1 = some v := by
        unfold checkedMul
        rw [Nat.mul_one, if_pos hv]
      have h3 : checkedAdd v 0 = some v := by
        unfold checkedAdd
        rw [Nat.add_zero, if_pos hv]
      simp [hp, h1, h2, h3]

/-- Witness for `C10_decimals_zero_dot_rejected` at the concrete inputs
`"1.5"` and `"15"`. -/
theorem C10_decimals_zero_dot_rejected_witness :
    parse_quantity_smallest_unit "1.5".toList 0 = none ∧
    parse_quantity_smallest_unit "15".toList 0 = parseU64 "15".toList :=
  ⟨(C10_decimals_zero_dot_rejected "1.5".toList).1 (by decide),
   (C10_decimals_zero_dot_rejected "15".toList).2 (by decide)⟩

/-! ## Order book (`src/orderbook.rs`) -/

/-- The two exchange identities (`src/api/mod.rs`). -/
inductive Exchange where
  | binance
  | bitstamp
deriving DecidableEq, Repr

/-- Order side (`src/api/mod.rs`). -/
inductive Side where
  | buy
  | sell
deriving DecidableEq, Repr

/-- A per-exchange price ladder: `BTreeMap<u64, u64>` embedded as an
association list with strictly ascending keys (the map's iteration order). -/
def Ladder : Type := List (Nat × Nat)

instance : DecidableEq Ladder := inferInstanceAs (DecidableEq (List (Nat × Nat)))

/-- Embeds `guard.entry(price).or_insert(0); *entry += quantity` on a
`BTreeMap`: insert the key with `0` if absent, then add `quantity` to the
stored value (Rust `u64` addition, wrapping modulo `2^64`). -/
def btreeAddAssign (m : Ladder) (price qty : Nat) : Ladder :=
  match m with
  | [] => [(price, qty % U64_MOD)]
  | (k, v) :: rest =>
    if price < k then (price, qty % U64_MOD) :: (k, v) :: rest
    else if price = k then (k, (v + qty) % U64_MOD) :: rest
    else (k, v) :: btreeAddAssign rest price qty

/-- The order book state (`OrderBook` in `src/orderbook.rs`): one ladder per
exchange and side. The outer `DashMap`'s unspecified iteration order is
embedded as the order of this association list. -/
structure OrderBook where
  bids : List (Exchange × Ladder)
  asks : List (Exchange × Ladder)
deriving DecidableEq

/-- Embeds `.entry(exchange).or_insert_with(new)` followed by the
`btreeAddAssign` mutation on the chosen exchange's ladder. -/
def updateSideMap (ls : List (Exchange × Ladder)) (ex : Exchange)
    (price qty : Nat) : List (Exchange × Ladder) :=
  match ls with
  | [] => [(ex, btreeAddAssign [] price qty)]
  | (e, l) :: rest =>
    if e = ex then (e, btreeAddAssign l price qty) :: rest
    else (e, l) :: updateSideMap rest ex price qty

/-- Embeds `update_price_level_for_exchange` (`src/orderbook.rs` lines 51–88):
on `Buy` mutate the bid-side map, on `Sell` the ask-side map. -/
def update_price_level_for_exchange (ob : OrderBook) (ex : Exchange)
    (price qty : Nat) (side : Side) : OrderBook :=
  match side with
  | .buy => { ob with bids := updateSideMap ob.bids ex price qty }
  | .sell => { ob with asks := updateSideMap ob.asks ex price qty }

/-- Embeds the collection loop of `top_bids_all_exchanges` /
`top_asks_all_exchanges`: for every per-exchange ladder entry, push
`(exchange, price, qty)` for each stored level whose `qty` is non-zero. -/
def collectNonzeroLevels (ls : List (Exchange × Ladder)) :
    List (Exchange × Nat × Nat) :=
  ls.flatMap fun el =>
    ((el.2 : List (Nat × Nat)).filter fun pq => pq.2 != 0).map fun pq =>
      (el.1, pq.1, pq.2)

/-- Comparator of the bid query: `levels.sort_by(|a, b| b.1.cmp(&a.1))`,
price descending. -/
def bidOrd (a b : Exchange × Nat × Nat) : Prop := b.2.1 ≤ a.2.1

/-- Comparator of the ask query: `levels.sort_by(|a, b| a.1.cmp(&b.1))`,
price ascending. -/
def askOrd (a b : Exchange × Nat × Nat) : Prop := a.2.1 ≤ b.2.1

instance : DecidableRel bidOrd := fun a b => Nat.decLe b.2.1 a.2.1

instance : DecidableRel askOrd := fun a b => Nat.decLe a.2.1 b.2.1

instance : IsTotal (Exchange × Nat × Nat) bidOrd :=
  ⟨fun a b => Nat.le_total b.2.1 a.2.1⟩

instance : IsTrans (Exchange × Nat × Nat) bidOrd :=
  ⟨fun _ _ _ hab hbc => Nat.le_trans hbc hab⟩

instance : IsTotal (Exchange × Nat × Nat) askOrd :=
  ⟨fun a b => Nat.le_total a.2.1 b.2.1⟩

instance : IsTrans (Exchange × Nat × Nat) askOrd :=
  ⟨fun _ _ _ hab hbc => Nat.le_trans hab hbc⟩

/-- Embeds `if levels.len() > 10 { levels.truncate(10) }`. -/
def truncTo10 (L : List (Exchange × Nat × Nat)) : List (Exchange × Nat × Nat) :=
  if 10 < L.length then L.take 10 else L

/-- Embeds `top_bids_all_exchanges` (`src/orderbook.rs` lines 91–114): collect
all non-zero bid levels, sort by price descending, truncate to 10 when longer.
Rust's `sort_by` is a stable sort, and a stable sort's output is uniquely
determined by the comparator and the input order, so the stable
`List.insertionSort` computes the same list. -/
def top_bids_all_exchanges (ob : OrderBook) : List (Exchange × Nat × Nat) :=
  truncTo10 (List.insertionSort bidOrd (collectNonzeroLevels ob.bids))

/-- Embeds `top_asks_all_exchanges` (`src/orderbook.rs` lines 117–140):
same as the bid query with the ascending comparator over the ask ladders. -/
def top_asks_all_exchanges (ob : OrderBook) : List (Exchange × Nat × Nat) :=
  truncTo10 (List.insertionSort askOrd (collectNonzeroLevels ob.asks))

/-- Embeds `spread_all_exchanges` (`src/orderbook.rs` lines 145–154):
`top_bids.first()?`, `top_asks.first()?`, then saturating subtraction
(`Nat` subtraction is exactly `u64::saturating_sub` on in-range values). -/
def spread_all_exchanges (ob : OrderBook) : Option Nat := do
  let b ← (top_bids_all_exchanges ob).head?
  let a ← (top_asks_all_exchanges ob).head?
  pure (a.2.1 - b.2.1)

/-- Every element of the collected level list has a non-zero quantity. -/
theorem collectNonzeroLevels_qty_pos {ls : List (Exchange × Ladder)}
    {x : Exchange × Nat × Nat} (hx : x ∈ collectNonzeroLevels ls) :
    0 < x.2.2 := by
  unfold collectNonzeroLevels at hx
  rcases List.mem_flatMap.mp hx with ⟨el, _, hmap⟩
  rcases List.mem_map.mp hmap with ⟨pq, hpq, hx'⟩
  rcases (List.mem_filter.mp hpq) with ⟨_, hq⟩
  have : pq.2 ≠ 0 := bne_iff_ne.mp hq
  rw [← hx']
  exact Nat.pos_of_ne_zero this

/-- Membership in the truncated sorted list implies membership in the sorted
list. -/
theorem mem_of_mem_truncated {L : List (Exchange × Nat × Nat)}
    {x : Exchange × Nat × Nat}
    (hx : x ∈ truncTo10 L) : x ∈ L := by
  unfold truncTo10 at hx
  split at hx
  · exact List.mem_of_mem_take hx
  · exact hx

/-- Claim C1 (code bug): the update in `update_price_level_for_exchange` is
`*entry += quantity` — it *sums* into the stored value instead of replacing
it, so applying the same event (Binance, Buy, price 100, qty 5) twice to the
empty book stores quantity 10, while a single application stores 5. -/
theorem C1_update_sums_instead_of_replacing :
    (update_price_level_for_exchange
        (update_price_level_for_exchange ⟨[], []⟩ .binance 100 5 .buy)
        .binance 100 5 .buy).bids = [(.binance, [(100, 10)])] ∧
    (update_price_level_for_exchange ⟨[], []⟩ .binance 100 5 .buy).bids
      = [(.binance, [(100, 5)])] := by
  decide

/-- Claim C2 (code bug): a quantity-0 event does not remove the key — on the
empty book it *stores* a zero-quantity entry `(100, 0)`, and on a book holding
quantity 5 at price 100 it leaves that entry untouched instead of deleting
it. -/
theorem C2_zero_event_stores_zero_entry :
    (update_price_level_for_exchange ⟨[], []⟩ .binance 100 0 .buy).bids
      = [(.binance, [(100, 0)])] ∧
    (update_price_level_for_exchange
        (update_price_level_for_exchange ⟨[], []⟩ .binance 100 5 .buy)
        .binance 100 0 .buy).bids = [(.binance, [(100, 5)])] := by
  decide

/-- A book whose two bid ladders quote the same price 100: Bitstamp (iterated
first in this state) with quantity 2 and Binance with quantity 1. -/
def tieBook : OrderBook :=
  ⟨[(.bitstamp, [(100, 2)]), (.binance, [(100, 1)])], []⟩

/-- Claim C3 counterexample: on `tieBook` the bid query returns two triples with
*equal* prices — so the snapshot is not strictly-descending by price — and the
tie is returned in ladder-iteration order (Bitstamp first), not with the
claimed Primary-before-Secondary (Binance-first) tie-break. -/
theorem C3_counterexample_tie_not_strict :
    top_bids_all_exchanges tieBook
        = [(.bitstamp, 100, 2), (.binance, 100, 1)] ∧
    ¬ List.Pairwise (fun a b : Exchange × Nat × Nat => b.2.1 < a.2.1)
        (top_bids_all_exchanges tieBook) := by
  decide

/-- Claim C3 (amended): `top_bids_all_exchanges` returns at most 10 triples,
sorted by price descending — non-strictly: equal prices from different
exchanges may both appear, kept in ladder-iteration order with no tie-break on
exchange identity — containing only non-zero quantities; the ask query is
symmetric with ascending order. -/
theorem C3_top_queries_sorted_bounded_nonzero (ob : OrderBook) :
    (top_bids_all_exchanges ob).length ≤ 10 ∧
    List.Sorted bidOrd (top_bids_all_exchanges ob) ∧
    (∀ x ∈ top_bids_all_exchanges ob, 0 < x.2.2) ∧
    (top_asks_all_exchanges ob).length ≤ 10 ∧
    List.Sorted askOrd (top_asks_all_exchanges ob) ∧
    (∀ x ∈ top_asks_all_exchanges ob, 0 < x.2.2) := by
  unfold top_bids_all_exchanges top_asks_all_exchanges truncTo10
  refine ⟨?_, ?_, ?_, ?_, ?_, ?_⟩
  · split
    · exact List.length_take_le 10 _
    · omega
  · split
    · exact (List.sorted_insertionSort bidOrd _).sublist (List.take_sublist _ _)
    · exact List.sorted_insertionSort bidOrd _
  · intro x hx
    exact collectNonzeroLevels_qty_pos
      ((List.mem_insertionSort bidOrd).mp (mem_of_mem_truncated hx))
  · split
    · exact List.length_take_le 10 _
    · omega
  · split
    · exact (List.sorted_insertionSort askOrd _).sublist (List.take_sublist _ _)
    · exact List.sorted_insertionSort askOrd _
  · intro x hx
    exact collectNonzeroLevels_qty_pos
      ((List.mem_insertionSort askOrd).mp (mem_of_mem_truncated hx))

/-- Witness for `C3_top_queries_sorted_bounded_nonzero` at the concrete book
`tieBook`. -/
theorem C3_top_queries_sorted_bounded_nonzero_witness :
    (Exchange.bitstamp, 100, 2) ∈ top_bids_all_exchanges tieBook ∧
    0 < ((Exchange.bitstamp, 100, 2) : Exchange × Nat × Nat).2.2 :=
  ⟨by decide,
   (C3_top_queries_sorted_bounded_nonzero tieBook).2.2.1
     (Exchange.bitstamp, 100, 2) (by decide)⟩

/-- Claim C4: `spread_all_exchanges` returns `none` exactly when the bid query
or the ask query is empty; when both are non-empty it returns the saturating
difference of the best ask price and the best bid price, which equals
`max 0 (best_ask − best_bid)` over the integers (a crossed book yields 0). -/
theorem C4_spread_saturating (ob : OrderBook) :
    (spread_all_exchanges ob = none ↔
      top_bids_all_exchanges ob = [] ∨ top_asks_all_exchanges ob = []) ∧
    (∀ b a : Exchange × Nat × Nat,
      (top_bids_all_exchanges ob).head? = some b →
      (top_asks_all_exchanges ob).head? = some a →
      spread_all_exchanges ob = some (a.2.1 - b.2.1) ∧
      ((a.2.1 - b.2.1 : Nat) : Int) = max 0 ((a.2.1 : Int) - (b.2.1 : Int))) := by
  constructor
  · rcases hB : (top_bids_all_exchanges ob).head? with _ | b <;>
      rcases hA : (top_asks_all_exchanges ob).head? with _ | a <;>
      simp [spread_all_exchanges, hB, hA, ← List.head?_eq_none_iff]
  · intro b a hb ha
    refine ⟨by simp [spread_all_exchanges, hb, ha], by omega⟩

/-- Witness for `C4_spread_saturating` at a concrete book with best bid 100
and best ask 110. -/
theorem C4_spread_saturating_witness :
    spread_all_exchanges
        ⟨[(.binance, [(100, 1)])], [(.binance, [(110, 1)])]⟩
      = some 10 :=
  ((C4_spread_saturating ⟨[(.binance, [(100, 1)])], [(.binance, [(110, 1)])]⟩).2
    (.binance, 100, 1) (.binance, 110, 1) (by decide) (by decide)).1

/-- Claim C9: every triple returned by `top_bids_all_exchanges` and
`top_asks_all_exchanges` has a positive quantity, for *every* book state —
including states whose ladders store zero-quantity entries — because both
queries skip `qty == 0` levels at read time. -/
theorem C9_queries_hide_zero_levels (ob : OrderBook) :
    (∀ x ∈ top_bids_all_exchanges ob, 0 < x.2.2) ∧
    (∀ x ∈ top_asks_all_exchanges ob, 0 < x.2.2) := by
  constructor
  · intro x hx
    unfold top_bids_all_exchanges at hx
    exact collectNonzeroLevels_qty_pos
      ((List.mem_insertionSort bidOrd).mp (mem_of_mem_truncated hx))
  · intro x hx
    unfold top_asks_all_exchanges at hx
    exact collectNonzeroLevels_qty_pos
      ((List.mem_insertionSort askOrd).mp (mem_of_mem_truncated hx))

/-- Witness for `C9_queries_hide_zero_levels` at a concrete book whose ladders
both store an explicit zero-quantity entry. -/
theorem C9_queries_hide_zero_levels_witness :
    0 < ((Exchange.binance, 100, 2) : Exchange × Nat × Nat).2.2 ∧
    0 < ((Exchange.binance, 80, 3) : Exchange × Nat × Nat).2.2 :=
  ⟨(C9_queries_hide_zero_levels
      ⟨[(.binance, [(50, 0), (100, 2)])], [(.binance, [(70, 0), (80, 3)])]⟩).1
      (Exchange.binance, 100, 2) (by decide),
   (C9_queries_hide_zero_levels
      ⟨[(.binance, [(50, 0), (100, 2)])], [(.binance, [(70, 0), (80, 3)])]⟩).2
      (Exchange.binance, 80, 3) (by decide)⟩

/-! ## Exchange adapters (`src/api/bitstamp.rs`, `src/api/binance.rs`) -/

/-- A parsed JSON value (`serde_json::Value`), restricted to the shapes the
two handlers inspect; `num` covers the non-negative integers that `as_u64`
accepts (other numeric shapes behave like any non-`num` value here and are
immaterial to the claims). -/
inductive Jv where
  | null
  | bool (b : Bool)
  | num (n : Nat)
  | str (s : List Char)
  | arr (elems : List Jv)
  | obj (fields : List (List Char × Jv))

/-- Embeds `serde_json::Value::get(key)`: field lookup on an object, `None`
otherwise. -/
def Jv.get : Jv → List Char → Option Jv
  | .obj fields, key => (fields.find? fun kv => kv.1 == key).map Prod.snd
  | _, _ => none

/-- Embeds `Value::as_str`. -/
def Jv.as_str : Jv → Option (List Char)
  | .str s => some s
  | _ => none

/-- Embeds `Value::as_array`. -/
def Jv.as_array : Jv → Option (List Jv)
  | .arr elems => some elems
  | _ => none

/-- Embeds `Value::as_u64`. -/
def Jv.as_u64 : Jv → Option Nat
  | .num n => some n
  | _ => none

/-- The `ExchangePrice::Bitstamp` payload built in `bitstamp.rs`. -/
structure BitstampEvent where
  price : Nat
  quantity : Nat
  exchange_timestamp : Nat
  received_at : Nat
  side : Side
deriving DecidableEq, Repr

/-- The `ExchangePrice::Binance` payload as built in `binance.rs`: that file
threads `depth.get("E").and_then(as_u64)` — an *optional* value — into the
event, so the field is `Option Nat` here; `received_at` (an `Instant` captured
on arrival) is an opaque token embedded as `Nat`. -/
structure BinanceEvent where
  price : Nat
  quantity : Nat
  exchange_timestamp : Option Nat
  received_at : Nat
  side : Side
deriving DecidableEq, Repr

/-- One iteration of the Bitstamp per-side loop (`bitstamp.rs` lines
131–158 / 163–190): the entry must be an array of length ≥ 2 whose first two
elements are strings; a size string equal to `"0"` is skipped (`continue`);
otherwise both strings must parse, and one event is emitted. -/
def bitstamp_entry_events (ets rcv : Nat) (side : Side) (entry : Jv) :
    List BitstampEvent :=
  match entry.as_array with
  | some (p :: sz :: _) =>
    match p.as_str, sz.as_str with
    | some price_str, some size_str =>
      if size_str = "0".toList then []
      else
        match parse_price_cents price_str,
            parse_quantity_smallest_unit size_str 8 with
        | some price, some quantity => [⟨price, quantity, ets, rcv, side⟩]
        | _, _ => []
    | _, _ => []
  | _ => []

/-- The whole Bitstamp per-side loop. -/
def bitstamp_side_events (ets rcv : Nat) (side : Side) (entries : List Jv) :
    List BitstampEvent :=
  entries.flatMap (bitstamp_entry_events ets rcv side)

/-- The body of `bitstamp.rs handle_message` after the size guard: `serde_json::from_str`
failure propagates as an error (`v` is the parse result, `none` meaning
malformed JSON); non-`data` events and missing fields are silently skipped;
`microtimestamp` is a string parsed as `u64` with default `0`; bids are
processed before asks. -/
def bitstamp_handle_parsed (v : Option Jv) (received_at : Nat) :
    Except (List Char) (List BitstampEvent) :=
  match v with
  | none => .error "invalid JSON".toList
  | some j =>
    match (j.get "event".toList).bind Jv.as_str with
    | none => .ok []
    | some ev =>
      if ev ≠ "data".toList then .ok []
      else
        match j.get "data".toList with
        | none => .ok []
        | some data =>
          let ets :=
            (((data.get "microtimestamp".toList).bind Jv.as_str).bind
              parseU64).getD 0
          let bidEvents :=
            match (data.get "bids".toList).bind Jv.as_array with
            | some bs => bitstamp_side_events ets received_at .buy bs
            | none => []
          let askEvents :=
            match (data.get "asks".toList).bind Jv.as_array with
            | some xs => bitstamp_side_events ets received_at .sell xs
            | none => []
          .ok (bidEvents ++ askEvents)

/-- Embeds `handle_message` of `bitstamp.rs` (lines 97–194): reject frames
longer than 100 000 bytes, then process the parsed JSON. -/
def bitstamp_handle_message (text : List Char) (v : Option Jv)
    (received_at : Nat) : Except (List Char) (List BitstampEvent) :=
  if 100000 < text.length then .error "Message too large".toList
  else bitstamp_handle_parsed v received_at

/-- One iteration of the Binance per-side loop (`binance.rs` lines 95–129 /
142–174): like Bitstamp's but with *no* skip of `"0"` sizes. -/
def binance_entry_events (ets : Option Nat) (rcv : Nat) (side : Side)
    (entry : Jv) : List BinanceEvent :=
  match entry.as_array with
  | some (p :: q :: _) =>
    match p.as_str, q.as_str with
    | some price_str, some qty_str =>
      match parse_price_cents price_str,
          parse_quantity_smallest_unit qty_str 8 with
      | some price, some quantity => [⟨price, quantity, ets, rcv, side⟩]
      | _, _ => []
    | _, _ => []
  | _ => []

/-- The whole Binance per-side loop. -/
def binance_side_events (ets : Option Nat) (rcv : Nat) (side : Side)
    (entries : List Jv) : List BinanceEvent :=
  entries.flatMap (binance_entry_events ets rcv side)

/-- The body of `binance.rs handle_message` after the size guard: a frame is accepted when
it has a `lastUpdateId` field (snapshot) or its `"e"` tag is `"depthUpdate"`
(update); the event time is `depth.get("E").and_then(as_u64)` with no default;
levels are read from the `"bids"`/`"asks"` keys. -/
def binance_handle_parsed (v : Option Jv) (received_at : Nat) :
    Except (List Char) (List BinanceEvent) :=
  match v with
  | none => .error "invalid JSON".toList
  | some depth =>
    let event_type := (depth.get "e".toList).bind Jv.as_str
    let is_snapshot := (depth.get "lastUpdateId".toList).isSome
    let is_update := event_type == some "depthUpdate".toList
    if !is_snapshot && !is_update then .ok []
    else
      let ets := (depth.get "E".toList).bind Jv.as_u64
      let bidEvents :=
        match (depth.get "bids".toList).bind Jv.as_array with
        | some bs => binance_side_events ets received_at .buy bs
        | none => []
      let askEvents :=
        match (depth.get "asks".toList).bind Jv.as_array with
        | some xs => binance_side_events ets received_at .sell xs
        | none => []
      .ok (bidEvents ++ askEvents)

/-- Embeds `handle_message` of `binance.rs` (lines 49–180): reject frames
longer than 100 000 bytes, then process the parsed JSON. -/
def binance_handle_message (text : List Char) (v : Option Jv)
    (received_at : Nat) : Except (List Char) (List BinanceEvent) :=
  if 100000 < text.length then .error "Message too large".toList
  else binance_handle_parsed v received_at

/-- Claim C8: both adapters reject every inbound text frame longer than 100 000
bytes with an error — the `error` branch carries no events — and frames of at
most 100 000 bytes pass the size guard untouched: the handler's result is then
exactly the post-guard processing of the parsed frame, with no rejection on
size grounds. -/
theorem C8_oversize_frames_rejected (text : List Char) (v : Option Jv)
    (rcv : Nat) :
    (100000 < text.length →
      bitstamp_handle_message text v rcv = .error "Message too large".toList ∧
      binance_handle_message text v rcv = .error "Message too large".toList) ∧
    (text.length ≤ 100000 →
      bitstamp_handle_message text v rcv = bitstamp_handle_parsed v rcv ∧
      binance_handle_message text v rcv = binance_handle_parsed v rcv) := by
  constructor
  · intro h
    unfold bitstamp_handle_message binance_handle_message
    rw [if_pos h, if_pos h]
    exact ⟨rfl, rfl⟩
  · intro h
    unfold bitstamp_handle_message binance_handle_message
    rw [if_neg (by omega), if_neg (by omega)]
    exact ⟨rfl, rfl⟩

/-- Witness for `C8_oversize_frames_rejected`: a 100 001-byte frame is
rejected, a 1-byte frame is passed to the post-guard processing. -/
theorem C8_oversize_frames_rejected_witness :
    bitstamp_handle_message (List.replicate 100001 'a') none 0
        = .error "Message too large".toList ∧
    binance_handle_message "x".toList none 0 = binance_handle_parsed none 0 :=
  ⟨((C8_oversize_frames_rejected (List.replicate 100001 'a') none 0).1
      (by rw [List.length_replicate]; omega)).1,
   ((C8_oversize_frames_rejected "x".toList none 0).2 (by decide)).2⟩

/-- Computes `true` iff the entry is an array of length ≥ 2 whose second element is the
string `"0"` — the shape `bitstamp.rs` skips with `continue`. -/
def entryHasZeroSize (entry : Jv) : Bool :=
  match entry.as_array with
  | some (_ :: sz :: _) => sz.as_str == some "0".toList
  | _ => false

/-- An entry of the skipped shape emits nothing. -/
theorem bitstamp_entry_events_of_zero {ets rcv : Nat} {side : Side} {e : Jv}
    (h : entryHasZeroSize e = true) :
    bitstamp_entry_events ets rcv side e = [] := by
  unfold entryHasZeroSize at h
  unfold bitstamp_entry_events
  split
  case h_2 => rfl
  case h_1 p sz rest heq =>
    rw [heq] at h
    dsimp only at h
    split
    case h_2 => rfl
    case h_1 price_str size_str hp hs =>
      rw [hs] at h
      have : size_str = "0".toList := by simpa using h
      rw [if_pos this]

/-- A well-formed Bitstamp `data` frame with a single bid `["100.00", "0"]`. -/
def zeroSizeFrame : Jv :=
  .obj [("event".toList, .str "data".toList),
        ("data".toList, .obj
          [("microtimestamp".toList, .str "5".toList),
           ("bids".toList, .arr [.arr [.str "100.00".toList, .str "0".toList]]),
           ("asks".toList, .arr [])])]

/-- Claim C6 counterexample: the handler emits *no* event for the `"0"`-sized
bid entry of `zeroSizeFrame` — the frame produces the empty event list, not a
qty-0 removal event at price 10000. -/
theorem C6_counterexample_zero_size_not_forwarded :
    bitstamp_handle_message "x".toList (some zeroSizeFrame) 7 = .ok [] := rfl

/-- Claim C6 (amended): `bitstamp.rs` *skips* every `[price_str, size_str]`
entry whose `size_str` is exactly `"0"` (`continue`), forwarding no event for
it: on every side of every frame, deleting all such entries leaves the emitted
events unchanged. (Entries whose size merely parses to zero, e.g. `"0.0"`,
are still forwarded.) -/
theorem C6_zero_size_entries_skipped (ets rcv : Nat) (side : Side)
    (entries : List Jv) :
    bitstamp_side_events ets rcv side
        (entries.filter fun e => !entryHasZeroSize e)
      = bitstamp_side_events ets rcv side entries := by
  induction entries with
  | nil => rfl
  | cons e rest ih =>
    unfold bitstamp_side_events at ih ⊢
    by_cases h : entryHasZeroSize e = true
    · rw [List.filter_cons_of_neg (by simp [h]), List.flatMap_cons,
        bitstamp_entry_events_of_zero h, ih]
      rfl
    · rw [List.filter_cons_of_pos (by simp [h]), List.flatMap_cons,
        List.flatMap_cons, ih]

/-- A Binance `depthUpdate` frame carrying levels only under the delta-variant
short keys `"b"`/`"a"`. -/
def shortKeyFrame : Jv :=
  .obj [("e".toList, .str "depthUpdate".toList),
        ("b".toList, .arr [.arr [.str "100.00".toList, .str "1.0".toList]]),
        ("a".toList, .arr [])]

/-- A Binance snapshot frame (`lastUpdateId` present, no `"E"` field) with one
bid `["100.00", "1.0"]`. -/
def snapshotNoEFrame : Jv :=
  .obj [("lastUpdateId".toList, .num 1),
        ("bids".toList, .arr [.arr [.str "100.00".toList, .str "1.0".toList]]),
        ("asks".toList, .arr [])]

/-- Claim C7 counterexample: an accepted `depthUpdate` frame whose levels sit
under the short keys `"b"`/`"a"` yields *no* events (the handler never reads
those keys), and a snapshot frame without the `"E"` field yields an event
whose `exchange_timestamp` is `none` — the optional lookup is passed through
with no `0` default. -/
theorem C7_counterexample_short_keys_ignored :
    binance_handle_message "x".toList (some shortKeyFrame) 0 = .ok [] ∧
    binance_handle_message "x".toList (some snapshotNoEFrame) 0
      = .ok [⟨10000, 100000000, none, 0, .buy⟩] :=
  ⟨rfl, rfl⟩

theorem find?_filter_of_imp {α : Type} (l : List α) (p q : α → Bool)
    (h : ∀ x, q x = true → p x = true) :
    (l.filter p).find? q = l.find? q := by
  induction l with
  | nil => rfl
  | cons x xs ih =>
    by_cases hq : q x = true
    · rw [List.filter_cons_of_pos (h x hq), List.find?_cons_of_pos _ hq,
        List.find?_cons_of_pos _ hq]
    · by_cases hp : p x = true
      · rw [List.filter_cons_of_pos hp, List.find?_cons_of_neg _ hq,
          List.find?_cons_of_neg _ hq, ih]
      · rw [List.filter_cons_of_neg hp, List.find?_cons_of_neg _ hq, ih]

/-- Removing the `"b"`/`"a"` fields of an object does not change any lookup
at another key. -/
theorem get_filter_ba (fields : List (List Char × Jv)) (key : List Char)
    (hk : (!(key == "b".toList || key == "a".toList)) = true) :
    Jv.get (.obj (fields.filter fun kv =>
        !(kv.1 == "b".toList || kv.1 == "a".toList))) key
      = Jv.get (.obj fields) key := by
  unfold Jv.get
  refine congrArg (Option.map Prod.snd) (find?_filter_of_imp _ _ _ ?_)
  intro kv hq
  have : kv.1 = key := by simpa using hq
  rw [this]
  exact hk

/-- Every event the Binance per-entry step emits carries the given
timestamp. -/
theorem binance_entry_events_ets {ets : Option Nat} {rcv : Nat} {side : Side}
    {e : Jv} {ev : BinanceEvent} (h : ev ∈ binance_entry_events ets rcv side e) :
    ev.exchange_timestamp = ets := by
  unfold binance_entry_events at h
  split at h
  case h_2 => cases h
  case h_1 =>
    split at h
    case h_2 => cases h
    case h_1 =>
      split at h
      case h_2 => cases h
      case h_1 =>
        rw [List.mem_singleton] at h
        rw [h]

/-- Every event the Binance per-side loop emits carries the given
timestamp. -/
theorem binance_side_events_ets {ets : Option Nat} {rcv : Nat} {side : Side}
    {entries : List Jv} {ev : BinanceEvent}
    (h : ev ∈ binance_side_events ets rcv side entries) :
    ev.exchange_timestamp = ets := by
  unfold binance_side_events at h
  rcases List.mem_flatMap.mp h with ⟨e, _, he⟩
  exact binance_entry_events_ets he

/-- Claim C7 (amended): the Binance handler extracts level arrays *only* from
the snapshot-variant keys `"bids"`/`"asks"` — the delta-variant short keys
`"b"`/`"a"` are never read, so deleting them from any frame leaves the result
unchanged — and `exchange_timestamp` is the optional lookup
`depth.get("E").and_then(as_u64)`, passed through into every emitted event
with no `0` default for absent fields. -/
theorem C7_snapshot_keys_only_optional_timestamp :
    (∀ (fields : List (List Char × Jv)) (rcv : Nat),
      binance_handle_parsed
          (some (.obj (fields.filter fun kv =>
            !(kv.1 == "b".toList || kv.1 == "a".toList)))) rcv
        = binance_handle_parsed (some (.obj fields)) rcv) ∧
    (∀ (j : Jv) (rcv : Nat) (evs : List BinanceEvent),
      binance_handle_parsed (some j) rcv = .ok evs →
      ∀ ev ∈ evs, ev.exchange_timestamp = (j.get "E".toList).bind Jv.as_u64) := by
  constructor
  · intro fields rcv
    unfold binance_handle_parsed
    dsimp only
    rw [get_filter_ba fields "e".toList (by decide),
      get_filter_ba fields "lastUpdateId".toList (by decide),
      get_filter_ba fields "E".toList (by decide),
      get_filter_ba fields "bids".toList (by decide),
      get_filter_ba fields "asks".toList (by decide)]
  · intro j rcv evs h ev hev
    unfold binance_handle_parsed at h
    dsimp only at h
    split at h
    · injection h with h'
      subst h'
      cases hev
    · injection h with h'
      subst h'
      rcases List.mem_append.mp hev with hb | ha
      · revert hb
        split
        · intro hb
          exact binance_side_events_ets hb
        · intro hb
          cases hb
      · revert ha
        split
        · intro ha
          exact binance_side_events_ets ha
        · intro ha
          cases ha

/-- Witness for `C7_snapshot_keys_only_optional_timestamp` at the concrete
frame `snapshotNoEFrame`. -/
theorem C7_snapshot_keys_only_optional_timestamp_witness :
    (⟨10000, 100000000, none, 0, .buy⟩ : BinanceEvent).exchange_timestamp
      = (snapshotNoEFrame.get "E".toList).bind Jv.as_u64 :=
  C7_snapshot_keys_only_optional_timestamp.2 snapshotNoEFrame 0
    [⟨10000, 100000000, none, 0, .buy⟩] rfl
    ⟨10000, 100000000, none, 0, .buy⟩ (List.mem_singleton.mpr rfl)

end AggCex
